import Mathlib

/-!
Verification development for the NaiBahu restaurant point-of-sale client.

This file shallowly embeds the business-rule surface of the repository:

* the cart / order store (`src/store/orderStore.ts`): `addItem`, `removeItem`,
  `updateQuantity`, `updateInstructions`, `clearCart`, `setTableId`,
  `getSubtotal`, `getTax`, `getTotal`, `getItemCount`;
* the order-taking page handlers (`handleAddItem`,
  `handleUpdateSpicePreference`, `handleGenerateKOT`);
* the table aggregation and block grouping in
  `src/components/captain/TableGrid` (duplicate-row merging over a JS `Map`,
  `toFixed(2)` re-stringification, status/order-id merging, `localeCompare`
  sorting);
* the dashboard `fetchTables` error path.

Machine numbers (JS `number`) are modelled as `ℚ` at the decimal level:
`parseFloat` results are rationals, `NaN` is modelled explicitly by `JsNum`,
and `Number.prototype.toFixed(2)` is modelled by `round2` (round to nearest
hundredth, ties upward, as the ECMAScript spec picks the larger candidate).
String amount payloads are modelled by `AmountStr`: either a string that
`parseFloat` reads as the rational `q`, or a string with no numeric prefix
(`parseFloat` yields `NaN`).  JS truthiness of `x || y` on optional
identifiers/strings is modelled exactly (`0` and `""` are falsy).
-/

namespace NaiBahu

/-- Spice levels, the keys of `SPICE_LEVELS` in `src/lib/spice.ts`. -/
inductive SpiceLevel
  | mild
  | regular
  | spicy
  | extra_spicy
deriving DecidableEq

/-- Menu item descriptor (`MenuItem` in `src/types/index.ts`), restricted to
the fields the cart logic reads. -/
structure MenuItem where
  item_id : ℤ
  item_name : String
  price : ℚ
  is_spicy : Bool
  spice_level : Option SpiceLevel
deriving DecidableEq

/-- Cart line (`CartItem` in `src/types/index.ts`): a menu item plus quantity,
special instructions and spice preference. -/
structure CartItem where
  item_id : ℤ
  item_name : String
  price : ℚ
  is_spicy : Bool
  spice_level : Option SpiceLevel
  quantity : ℤ
  special_instructions : String
  spice_preference : Option SpiceLevel
deriving DecidableEq

/-- State of the order store (`useOrderStore` in `src/store/orderStore.ts`):
the cart lines and the associated table id. -/
structure OrderState where
  items : List CartItem
  tableId : Option ℤ
deriving DecidableEq

/-- Initial order-store state: empty cart, no table. -/
def emptyCart : OrderState := { items := [], tableId := none }

/-- `addItem` of the order store: if a line with the same `item_id` exists,
increment its quantity, else append the item with quantity 1 and empty
instructions (the spread `{ ...item, quantity: 1, special_instructions: '' }`
keeps every other field of the argument, including `spice_preference` when the
call site passes a full cart item). -/
def addItem (item : CartItem) (s : OrderState) : OrderState :=
  match s.items.find? (fun i => decide (i.item_id = item.item_id)) with
  | some _ =>
      { s with items := s.items.map (fun i =>
          if i.item_id = item.item_id then { i with quantity := i.quantity + 1 } else i) }
  | none =>
      { s with items := s.items ++ [{ item with quantity := 1, special_instructions := "" }] }

/-- `removeItem` of the order store: drop every line with the given id. -/
def removeItem (itemId : ℤ) (s : OrderState) : OrderState :=
  { s with items := s.items.filter (fun i => decide (i.item_id ≠ itemId)) }

/-- `updateQuantity` of the order store: a non-positive target removes the
line, otherwise the matching line's quantity is replaced. -/
def updateQuantity (itemId : ℤ) (quantity : ℤ) (s : OrderState) : OrderState :=
  if quantity ≤ 0 then
    { s with items := s.items.filter (fun i => decide (i.item_id ≠ itemId)) }
  else
    { s with items := s.items.map (fun i =>
        if i.item_id = itemId then { i with quantity := quantity } else i) }

/-- `updateInstructions` of the order store. -/
def updateInstructions (itemId : ℤ) (instructions : String) (s : OrderState) : OrderState :=
  { s with items := s.items.map (fun i =>
      if i.item_id = itemId then { i with special_instructions := instructions } else i) }

/-- `clearCart` of the order store: empties the lines and nulls the table id. -/
def clearCart (_ : OrderState) : OrderState := { items := [], tableId := none }

/-- `setTableId` of the order store. -/
def setTableId (tableId : ℤ) (s : OrderState) : OrderState := { s with tableId := some tableId }

/-- `getSubtotal` of the order store:
`items.reduce((sum, item) => sum + item.price * item.quantity, 0)`. -/
def getSubtotal (s : OrderState) : ℚ :=
  s.items.foldl (fun sum i => sum + i.price * (i.quantity : ℚ)) 0

/-- `getTax` of the order store: 5% GST on the subtotal. -/
def getTax (s : OrderState) : ℚ := getSubtotal s * (5 / 100)

/-- `getTotal` of the order store: subtotal plus tax. -/
def getTotal (s : OrderState) : ℚ := getSubtotal s + getTax s

/-- `getItemCount` of the order store: sum of quantities. -/
def getItemCount (s : OrderState) : ℤ :=
  s.items.foldl (fun sum i => sum + i.quantity) 0

/-- One user-level cart operation of the order store. -/
inductive CartOp
  | add (item : CartItem)
  | remove (itemId : ℤ)
  | update (itemId : ℤ) (quantity : ℤ)
  | instructions (itemId : ℤ) (text : String)
  | clear
  | setTable (tableId : ℤ)

/-- Apply one cart operation to the order-store state. -/
def applyOp (s : OrderState) : CartOp → OrderState
  | .add item => addItem item s
  | .remove itemId => removeItem itemId s
  | .update itemId q => updateQuantity itemId q s
  | .instructions itemId text => updateInstructions itemId text s
  | .clear => clearCart s
  | .setTable t => setTableId t s

/-- Apply a sequence of cart operations in order. -/
def applyOps (ops : List CartOp) (s : OrderState) : OrderState := ops.foldl applyOp s

lemma foldl_add_lineTotal (l : List CartItem) (c : ℚ) :
    l.foldl (fun sum i => sum + i.price * (i.quantity : ℚ)) c
      = c + (l.map (fun i => i.price * (i.quantity : ℚ))).sum := by
  induction l generalizing c with
  | nil => simp
  | cons a t ih => simp [List.foldl, ih, add_assoc]

lemma getSubtotal_eq (s : OrderState) :
    getSubtotal s = (s.items.map (fun i => i.price * (i.quantity : ℚ))).sum := by
  have h := foldl_add_lineTotal s.items 0
  simpa [getSubtotal] using h

/-- C1: for every sequence of `addItem` / `removeItem` / `updateQuantity`
(and the other store) operations applied to the initially empty cart,
`getSubtotal` returns exactly the sum over the surviving lines of
(unit price × quantity). -/
theorem subtotal_is_sum_of_lines (ops : List CartOp) :
    getSubtotal (applyOps ops emptyCart)
      = ((applyOps ops emptyCart).items.map (fun i => i.price * (i.quantity : ℚ))).sum :=
  getSubtotal_eq (applyOps ops emptyCart)

/-- Quantity invariant for a cart state: every line has quantity at least 1. -/
def QtyInv (s : OrderState) : Prop := ∀ i ∈ s.items, 1 ≤ i.quantity

lemma qtyInv_applyOp {s : OrderState} (h : QtyInv s) (op : CartOp) : QtyInv (applyOp s op) := by
  cases op with
  | add item =>
      simp only [applyOp, addItem]
      cases hf : s.items.find? (fun i => decide (i.item_id = item.item_id)) with
      | some e =>
          intro i hi
          simp only [List.mem_map] at hi
          obtain ⟨j, hj, rfl⟩ := hi
          by_cases hc : j.item_id = item.item_id
          · rw [if_pos hc]
            have := h j hj
            show 1 ≤ j.quantity + 1
            omega
          · simp only [if_neg hc]
            exact h j hj
      | none =>
          intro i hi
          simp only [List.mem_append, List.mem_singleton] at hi
          rcases hi with hi | rfl
          · exact h i hi
          · simp
  | remove itemId =>
      intro i hi
      simp only [applyOp, removeItem, List.mem_filter] at hi
      exact h i hi.1
  | update itemId q =>
      simp only [applyOp, updateQuantity]
      by_cases hq : q ≤ 0
      · simp only [if_pos hq]
        intro i hi
        simp only [List.mem_filter] at hi
        exact h i hi.1
      · simp only [if_neg hq]
        intro i hi
        simp only [List.mem_map] at hi
        obtain ⟨j, hj, rfl⟩ := hi
        by_cases hc : j.item_id = itemId
        · rw [if_pos hc]
          show 1 ≤ q
          omega
        · simp only [if_neg hc]
          exact h j hj
  | instructions itemId text =>
      intro i hi
      simp only [applyOp, updateInstructions, List.mem_map] at hi
      obtain ⟨j, hj, rfl⟩ := hi
      by_cases hc : j.item_id = itemId
      · simp only [hc, if_pos rfl]
        exact h j hj
      · simp only [if_neg hc]
        exact h j hj
  | clear =>
      intro i hi
      simp [applyOp, clearCart] at hi
  | setTable t =>
      intro i hi
      exact h i hi

lemma qtyInv_applyOps (ops : List CartOp) {s : OrderState} (h : QtyInv s) :
    QtyInv (applyOps ops s) := by
  induction ops generalizing s with
  | nil => exact h
  | cons op rest ih => exact ih (qtyInv_applyOp h op)

/-- C8: after any sequence of cart operations starting from the empty cart,
every surviving line has quantity at least 1; `updateQuantity` with a target
of 0 or less removes the line (and only it) instead of storing a non-positive
quantity; and `updateQuantity` on an identifier absent from the cart leaves
the state unchanged. -/
theorem quantity_always_positive :
    (∀ ops : List CartOp, ∀ i ∈ (applyOps ops emptyCart).items, 1 ≤ i.quantity) ∧
    (∀ (s : OrderState) (itemId q : ℤ), q ≤ 0 →
      (updateQuantity itemId q s).items = s.items.filter (fun i => decide (i.item_id ≠ itemId))) ∧
    (∀ (s : OrderState) (itemId q : ℤ), (∀ i ∈ s.items, i.item_id ≠ itemId) →
      updateQuantity itemId q s = s) := by
  refine ⟨?_, ?_, ?_⟩
  · intro ops
    exact qtyInv_applyOps ops (by intro i hi; simp [emptyCart] at hi)
  · intro s itemId q hq
    simp [updateQuantity, if_pos hq]
  · intro s itemId q habs
    simp only [updateQuantity]
    by_cases hq : q ≤ 0
    · rw [if_pos hq]
      have hfil : s.items.filter (fun i => decide (i.item_id ≠ itemId)) = s.items := by
        apply List.filter_eq_self.mpr
        intro i hi
        simpa using habs i hi
      rw [hfil]
    · rw [if_neg hq]
      have hmap : s.items.map (fun i =>
          if i.item_id = itemId then { i with quantity := q } else i) = s.items := by
        have h1 : s.items.map (fun i =>
            if i.item_id = itemId then { i with quantity := q } else i) = s.items.map id :=
          List.map_congr_left (fun i hi => if_neg (habs i hi))
        rw [h1, List.map_id]
      rw [hmap]

/-- Concrete one-line cart used by witnesses. -/
def sampleCart : OrderState :=
  { items := [{ item_id := 1, item_name := "Paneer Tikka", price := 250,
                is_spicy := true, spice_level := some .regular, quantity := 2,
                special_instructions := "", spice_preference := some .regular }],
    tableId := some 4 }

/-- Closed witness for `quantity_always_positive`: the hypotheses are
discharged on a concrete cart. -/
theorem quantity_always_positive_witness :
    (updateQuantity 1 0 sampleCart).items = [] := by
  have h := quantity_always_positive.2.1 sampleCart 1 0 (by decide)
  simpa [sampleCart] using h

/-- Cart item built by `handleAddItem` of the order-taking page for a menu
item that is not yet in the cart: quantity 1, empty instructions, and the
item's default spice level as initial preference. -/
def cartItemOfMenu (m : MenuItem) : CartItem :=
  { item_id := m.item_id, item_name := m.item_name, price := m.price,
    is_spicy := m.is_spicy, spice_level := m.spice_level,
    quantity := 1, special_instructions := "", spice_preference := m.spice_level }

/-- `handleAddItem` of the order-taking page: if a line for the menu item's id
exists, call `updateQuantity` with that line's quantity plus one, else build a
fresh cart item and pass it to the store's `addItem`. -/
def handleAddItem (menuItem : MenuItem) (s : OrderState) : OrderState :=
  match s.items.find? (fun i => decide (i.item_id = menuItem.item_id)) with
  | some existing => updateQuantity menuItem.item_id (existing.quantity + 1) s
  | none => addItem (cartItemOfMenu menuItem) s

/-- `handleUpdateSpicePreference` of the order-taking page: map the new spice
preference over the lines, then clear the cart and re-add each mapped line
through the store's `addItem`. -/
def handleUpdateSpicePreference (itemId : ℤ) (level : SpiceLevel) (s : OrderState) : OrderState :=
  let updatedItems := s.items.map (fun i =>
    if i.item_id = itemId then { i with spice_preference := some level } else i)
  updatedItems.foldl (fun st it => addItem it st) (clearCart s)

/-- C7: under the documented cart invariants (quantities at least 1, at most
one line per item id), `handleAddItem` of an item already in the cart
increments exactly the matching line's quantity by 1 and keeps the number of
lines; of an absent item it appends one new line with quantity 1, empty
instructions, and the item's default spice level as preference; and adding
the same item twice to the empty cart yields one line with quantity 2. -/
theorem handleAddItem_spec (s : OrderState) (m : MenuItem)
    (hq : ∀ i ∈ s.items, 1 ≤ i.quantity)
    (hnd : (s.items.map (fun i => i.item_id)).Nodup) :
    ((∃ i ∈ s.items, i.item_id = m.item_id) →
        (handleAddItem m s).items
          = s.items.map (fun i =>
              if i.item_id = m.item_id then { i with quantity := i.quantity + 1 } else i)
        ∧ (handleAddItem m s).items.length = s.items.length) ∧
    ((∀ i ∈ s.items, i.item_id ≠ m.item_id) →
        (handleAddItem m s).items = s.items ++ [cartItemOfMenu m]) ∧
    (handleAddItem m (handleAddItem m emptyCart)).items
        = [{ cartItemOfMenu m with quantity := 2 }] := by
  refine ⟨?_, ?_, ?_⟩
  · rintro ⟨i0, hi0, hid0⟩
    cases hf : s.items.find? (fun i => decide (i.item_id = m.item_id)) with
    | none =>
        rw [List.find?_eq_none] at hf
        exact absurd hid0 (by simpa using hf i0 hi0)
    | some e =>
        have he : e ∈ s.items := List.mem_of_find?_eq_some hf
        have hpe : e.item_id = m.item_id := by simpa using List.find?_some hf
        have hqe : 1 ≤ e.quantity := hq e he
        have hnot : ¬ e.quantity + 1 ≤ 0 := by omega
        constructor
        · simp only [handleAddItem, hf, updateQuantity, if_neg hnot]
          apply List.map_congr_left
          intro i hi
          by_cases hc : i.item_id = m.item_id
          · rw [if_pos hc, if_pos hc]
            have hie : i = e :=
              List.inj_on_of_nodup_map hnd hi he (by rw [hc, hpe])
            rw [hie]
          · rw [if_neg hc, if_neg hc]
        · simp only [handleAddItem, hf, updateQuantity, if_neg hnot]
          exact List.length_map _ _
  · intro habs
    have hf : s.items.find? (fun i => decide (i.item_id = m.item_id)) = none :=
      List.find?_eq_none.mpr (fun i hi => by simpa using habs i hi)
    have hf2 : s.items.find? (fun i => decide (i.item_id = (cartItemOfMenu m).item_id)) = none :=
      List.find?_eq_none.mpr (fun i hi => by simpa [cartItemOfMenu] using habs i hi)
    simp only [handleAddItem, hf, addItem, hf2]
    rfl
  · simp [handleAddItem, emptyCart, addItem, cartItemOfMenu, updateQuantity]

/-- Concrete menu item used by witnesses. -/
def sampleMenuItem : MenuItem :=
  { item_id := 2, item_name := "Butter Naan", price := 60,
    is_spicy := false, spice_level := none }

/-- Closed witness for `handleAddItem_spec`: hypotheses discharged on a
concrete one-line cart and menu item absent from it. -/
theorem handleAddItem_spec_witness :
    (handleAddItem sampleMenuItem sampleCart).items
      = sampleCart.items ++ [cartItemOfMenu sampleMenuItem] :=
  (handleAddItem_spec sampleCart sampleMenuItem (by decide) (by decide)).2.1 (by decide)

/-- Concrete cart exhibiting the spice-preference state reset: one line with
quantity 2 and instructions, table id set. -/
def spiceBugCart : OrderState :=
  { items := [{ item_id := 1, item_name := "Dal Tadka", price := 180,
                is_spicy := true, spice_level := some .regular, quantity := 2,
                special_instructions := "less salt", spice_preference := some .regular }],
    tableId := some 5 }

/-- C4 (code bug): `handleUpdateSpicePreference` does set the matching line's
spice preference, but because it clears the cart and re-adds the mapped lines
through the store's `addItem` (which forces quantity 1 and empty
instructions) it also resets the line's quantity from 2 to 1, erases its
special instructions, and nulls the cart's table identifier. -/
theorem updateSpicePreference_resets_state :
    (handleUpdateSpicePreference 1 .spicy spiceBugCart).items.map (fun i => i.quantity) = [1] ∧
    (handleUpdateSpicePreference 1 .spicy spiceBugCart).items.map
        (fun i => i.special_instructions) = [""] ∧
    (handleUpdateSpicePreference 1 .spicy spiceBugCart).tableId = none ∧
    (handleUpdateSpicePreference 1 .spicy spiceBugCart).items.map
        (fun i => i.spice_preference) = [some .spicy] ∧
    spiceBugCart.items.map (fun i => i.quantity) = [2] ∧
    spiceBugCart.items.map (fun i => i.special_instructions) = ["less salt"] ∧
    spiceBugCart.tableId = some 5 := by
  decide

/-- Table status, the closed set `'empty' | 'running' | 'billed'` of
`src/types/index.ts` (the spec calls these available / occupied /
awaiting-payment). -/
inductive TableStatus
  | empty
  | running
  | billed
deriving DecidableEq

/-- A backend amount payload value as seen by `parseFloat`: either a string
whose numeric prefix parses to the rational `q`, or a string with no numeric
prefix, on which `parseFloat` yields `NaN`. -/
inductive AmountStr
  | numStr (q : ℚ)
  | malformedStr
deriving DecidableEq

/-- A JS number at the decimal level: a rational value or `NaN`. -/
inductive JsNum
  | nan
  | val (q : ℚ)
deriving DecidableEq

/-- JS addition: `NaN` absorbs. -/
def JsNum.add : JsNum → JsNum → JsNum
  | .val a, .val b => .val (a + b)
  | _, _ => .nan

/-- `Number.prototype.toFixed(2)` at the decimal level: round to the nearest
hundredth, ties toward the larger candidate (the ECMAScript rule picks the
larger integer `n` when two are equally close). -/
def round2 (q : ℚ) : ℚ := (((q * 100 + 1 / 2).floor : ℤ) : ℚ) / 100

lemma ratFloor_eq_intFloor (q : ℚ) : q.floor = ⌊q⌋ := by
  rw [Rat.floor_def' q, ← Rat.floor_def]

lemma round2_eq (q : ℚ) : round2 q = ((⌊q * 100 + 1 / 2⌋ : ℤ) : ℚ) / 100 := by
  rw [round2, ratFloor_eq_intFloor]

lemma round2_of_bounds {q : ℚ} {n : ℤ} (h1 : (n : ℚ) ≤ q * 100 + 1 / 2)
    (h2 : q * 100 + 1 / 2 < n + 1) : round2 q = (n : ℚ) / 100 := by
  rw [round2_eq, Int.floor_eq_iff.mpr ⟨h1, h2⟩]

/-- `(x).toFixed(2)` producing the stored amount string: a rounded numeric
string for a value, the string `"NaN"` (no numeric prefix) for `NaN`. -/
def toFixed2 : JsNum → AmountStr
  | .val q => .numStr (round2 q)
  | .nan => .malformedStr

/-- `parseFloat(a || '0')` as used for `total_amount`: null / undefined /
empty become `'0'` (JS `||` on a falsy operand), a numeric string parses to
its value, a malformed string yields `NaN`. -/
def parseAmount : Option AmountStr → JsNum
  | none => .val 0
  | some (.numStr q) => .val q
  | some .malformedStr => .nan

/-- One backend table row (`Table` of `src/types/index.ts`, restricted to the
fields the aggregation in `TableGrid` reads). Several rows may share one
`table_id`, one per active order. -/
structure TableRow where
  table_id : ℤ
  table_number : String
  table_block : String
  seating_capacity : ℤ
  status : TableStatus
  current_order_id : Option ℤ
  order_number : Option String
  total_amount : Option AmountStr
deriving DecidableEq

/-- JS `a || b` on an optional number: `null`, `undefined` and `0` are falsy. -/
def jsOrId (a b : Option ℤ) : Option ℤ :=
  match a with
  | some n => if n = 0 then b else some n
  | none => b

/-- JS `a || b` on an optional string: `null`, `undefined` and `""` are falsy. -/
def jsOrStr (a b : Option String) : Option String :=
  match a with
  | some s => if s = "" then b else some s
  | none => b

/-- Merge step of `TableGrid`: on a repeated `table_id`, sum the parsed
amounts and store the sum re-stringified with `toFixed(2)`, let an incoming
`running` status dominate, and keep the first truthy order id / order number
(the spread `{ ...existingTable, ... }` keeps every other field of the
first-seen row). -/
def mergeRow (existing incoming : TableRow) : TableRow :=
  { existing with
    total_amount :=
      some (toFixed2 ((parseAmount existing.total_amount).add
        (parseAmount incoming.total_amount))),
    status := if incoming.status = .running then .running else existing.status,
    current_order_id := jsOrId existing.current_order_id incoming.current_order_id,
    order_number := jsOrStr existing.order_number incoming.order_number }

/-- `Map.get` on the insertion-ordered association list modelling the JS
`Map<number, Table>` (keys are unique by construction). -/
def mapGet : List (ℤ × TableRow) → ℤ → Option TableRow
  | [], _ => none
  | p :: rest, k => if p.1 = k then some p.2 else mapGet rest k

/-- `Map.set`: replace the value in place if the key exists, append an entry
otherwise (JS `Map` keeps the original insertion position on overwrite). -/
def mapSet : List (ℤ × TableRow) → ℤ → TableRow → List (ℤ × TableRow)
  | [], k, v => [(k, v)]
  | p :: rest, k, v => if p.1 = k then (k, v) :: rest else p :: mapSet rest k v

/-- Body of the `tableArray.forEach` in `TableGrid`: seed on first encounter
of a `table_id`, merge on each later encounter. -/
def aggregateRow (m : List (ℤ × TableRow)) (t : TableRow) : List (ℤ × TableRow) :=
  match mapGet m t.table_id with
  | some existing => mapSet m t.table_id (mergeRow existing t)
  | none => mapSet m t.table_id t

/-- The whole aggregation: fold the rows in input order into the map. -/
def aggregate (rows : List TableRow) : List (ℤ × TableRow) :=
  rows.foldl aggregateRow []

/-- `Array.from(aggregatedTablesMap.values())`. -/
def aggregateTables (rows : List TableRow) : List TableRow :=
  (aggregate rows).map (fun p => p.2)

/-- The aggregated `total_amount` field stored for a table id, if the id is
present at all. -/
def totalAt (m : List (ℤ × TableRow)) (id : ℤ) : Option (Option AmountStr) :=
  (mapGet m id).map (fun t => t.total_amount)

/-- Lexicographic strict comparison of char lists by code point; the base
behaviour of `String.prototype.localeCompare` without a `numeric` option on
the plain ASCII identifiers this code sorts. -/
def charListLt : List Char → List Char → Bool
  | [], [] => false
  | [], _ :: _ => true
  | _ :: _, [] => false
  | a :: as, b :: bs =>
      if a.toNat < b.toNat then true
      else if b.toNat < a.toNat then false
      else charListLt as bs

/-- Non-strict string order derived from `charListLt`; `a.localeCompare(b) <= 0`. -/
def stringLe (a b : String) : Bool := ! charListLt b.toList a.toList

/-- Stable insertion of `x` into a sorted list: `x` goes after every earlier
element that compares less-or-equal, as a stable JS `Array.prototype.sort`
leaves equal elements in encounter order. -/
def insertLe {α : Type} (le : α → α → Bool) (x : α) : List α → List α
  | [] => [x]
  | y :: ys => if le y x then y :: insertLe le x ys else x :: y :: ys

/-- Stable insertion sort with a boolean comparator, modelling the (stable)
JS `Array.prototype.sort(compareFn)`. -/
def sortLe {α : Type} (le : α → α → Bool) : List α → List α
  | [] => []
  | x :: xs => insertLe le x (sortLe le xs)

/-- The per-block sort of `TableGrid`:
`.sort((a, b) => a.table_number.localeCompare(b.table_number))`. -/
def sortTablesByNumber (l : List TableRow) : List TableRow :=
  sortLe (fun a b => stringLe a.table_number b.table_number) l

/-- The `reduce` of `TableGrid` grouping aggregated tables by block label,
keeping block keys in first-encounter order and tables in input order. -/
def groupInsert (acc : List (String × List TableRow)) (t : TableRow) :
    List (String × List TableRow) :=
  if acc.any (fun p => decide (p.1 = t.table_block)) then
    acc.map (fun p => if p.1 = t.table_block then (p.1, p.2 ++ [t]) else p)
  else
    acc ++ [(t.table_block, [t])]

/-- `groupedTables`: the block-keyed grouping of the aggregated tables. -/
def groupedTables (l : List TableRow) : List (String × List TableRow) :=
  l.foldl groupInsert []

/-- `groupByBlock`: blocks sorted alphabetically (`Object.keys(...).sort()`),
and within each block the tables sorted by display number with
`localeCompare`. This is the displayed order of the grid. -/
def groupByBlock (l : List TableRow) : List (String × List TableRow) :=
  (sortLe stringLe ((groupedTables l).map (fun p => p.1))).map (fun b =>
    (b, sortTablesByNumber ((((groupedTables l).find?
        (fun p => decide (p.1 = b))).map (fun p => p.2)).getD [])))

lemma mapGet_mapSet_self (m : List (ℤ × TableRow)) (k : ℤ) (v : TableRow) :
    mapGet (mapSet m k v) k = some v := by
  induction m with
  | nil => simp [mapSet, mapGet]
  | cons p rest ih =>
      by_cases hp : p.1 = k
      · simp [mapSet, hp, mapGet]
      · simp [mapSet, hp, mapGet, ih]

lemma mapGet_mapSet_ne (m : List (ℤ × TableRow)) {k k2 : ℤ} (v : TableRow) (h : k2 ≠ k) :
    mapGet (mapSet m k v) k2 = mapGet m k2 := by
  have hk : ¬ k = k2 := fun hh => h hh.symm
  induction m with
  | nil =>
      simp only [mapSet, mapGet]
      rw [if_neg hk]
  | cons p rest ih =>
      simp only [mapSet]
      by_cases hp : p.1 = k
      · rw [if_pos hp]
        simp only [mapGet]
        rw [if_neg hk, if_neg (by rw [hp]; exact hk)]
      · rw [if_neg hp]
        by_cases hq : p.1 = k2
        · simp only [mapGet]
          rw [if_pos hq, if_pos hq]
        · simp only [mapGet]
          rw [if_neg hq, if_neg hq]
          exact ih

/-- First example row of the spec's merge test: occupied, amount 250.00. -/
def exRow1 : TableRow :=
  { table_id := 1, table_number := "3", table_block := "A", seating_capacity := 4,
    status := .running, current_order_id := some 11, order_number := some "ORD-11",
    total_amount := some (.numStr 250) }

/-- Second example row of the spec's merge test: not occupied, amount 180.50,
same table id. -/
def exRow2 : TableRow :=
  { table_id := 1, table_number := "3", table_block := "A", seating_capacity := 4,
    status := .empty, current_order_id := none, order_number := none,
    total_amount := some (.numStr (361 / 2)) }

/-- Row with amount 0.004 (a value with more than two decimals) for table 7. -/
def exRowThin : TableRow :=
  { table_id := 7, table_number := "7", table_block := "B", seating_capacity := 2,
    status := .running, current_order_id := some 3, order_number := some "ORD-3",
    total_amount := some (.numStr (1 / 250)) }

/-- C2 counterexample: on the second encounter of table 7 the code does not
add the incoming amount to the running total as claimed; it stores the sum
re-rounded by `toFixed(2)`. Two rows of 0.004 produce a stored total of 0.01,
not 0.008. -/
theorem merge_total_rounded_counterexample :
    totalAt (aggregate [exRowThin, exRowThin]) 7 = some (some (.numStr (1 / 100))) ∧
    (1 : ℚ) / 100 ≠ 1 / 250 + 1 / 250 := by
  constructor
  · simp [totalAt, aggregate, aggregateRow, mapGet, mapSet, mergeRow, parseAmount,
      JsNum.add, toFixed2, exRowThin]
    rw [round2_of_bounds (n := 1) (by norm_num) (by norm_num)]
    norm_num
  · norm_num

/-- C2 (amended): on a repeated table id the aggregator stores the sum of the
parsed amounts rounded to two decimals (`toFixed(2)`), sets the merged status
to running exactly when the existing or the incoming row is running, keeps
the first truthy (non-null, non-zero) running-order id, and takes an existing
null order id from the incoming row; the spec's concrete example (250.00
occupied + 180.50 not occupied) yields one entry with total 430.50 and
status occupied. -/
theorem aggregate_merge_spec (m : List (ℤ × TableRow)) (t e : TableRow)
    (h : mapGet m t.table_id = some e) :
    mapGet (aggregateRow m t) t.table_id = some (mergeRow e t) ∧
    (∀ a b : ℚ, e.total_amount = some (.numStr a) → t.total_amount = some (.numStr b) →
      (mergeRow e t).total_amount = some (.numStr (round2 (a + b)))) ∧
    ((mergeRow e t).status = .running ↔ (e.status = .running ∨ t.status = .running)) ∧
    (∀ n : ℤ, e.current_order_id = some n → n ≠ 0 →
      (mergeRow e t).current_order_id = some n) ∧
    (e.current_order_id = none → (mergeRow e t).current_order_id = t.current_order_id) ∧
    totalAt (aggregate [exRow1, exRow2]) 1 = some (some (.numStr (861 / 2))) ∧
    (aggregate [exRow1, exRow2]).length = 1 ∧
    (mapGet (aggregate [exRow1, exRow2]) 1).map (fun r => r.status) = some .running := by
  refine ⟨?_, ?_, ?_, ?_, ?_, ?_, by decide, by decide⟩
  · simp [aggregateRow, h, mapGet_mapSet_self]
  · intro a b ha hb
    simp [mergeRow, ha, hb, parseAmount, JsNum.add, toFixed2]
  · by_cases ht : t.status = .running
    · simp [mergeRow, ht]
    · simp [mergeRow, ht]
  · intro n hn hn0
    simp [mergeRow, jsOrId, hn, hn0]
  · intro hn
    simp [mergeRow, jsOrId, hn]
  · simp [totalAt, aggregate, aggregateRow, mapGet, mapSet, mergeRow, parseAmount,
      JsNum.add, toFixed2, exRow1, exRow2]
    rw [round2_of_bounds (n := 43050) (by norm_num) (by norm_num)]
    norm_num

/-- Closed witness for `aggregate_merge_spec` at a one-entry map and the
spec's example rows. -/
theorem aggregate_merge_spec_witness :
    mapGet (aggregateRow [(1, exRow1)] exRow2) exRow2.table_id
      = some (mergeRow exRow1 exRow2) :=
  (aggregate_merge_spec [(1, exRow1)] exRow2 exRow1 rfl).1

/-- Row for table 5 whose amount string has no numeric prefix. -/
def exRowMal : TableRow :=
  { table_id := 5, table_number := "5", table_block := "A", seating_capacity := 4,
    status := .running, current_order_id := some 9, order_number := some "ORD-9",
    total_amount := some .malformedStr }

/-- Row for table 5 with amount 100. -/
def exRowHundred : TableRow :=
  { table_id := 5, table_number := "5", table_block := "A", seating_capacity := 4,
    status := .running, current_order_id := some 9, order_number := some "ORD-9",
    total_amount := some (.numStr 100) }

/-- C5 counterexample: a malformed (non-numeric) amount string does not
contribute zero; `parseFloat` yields `NaN`, which absorbs the whole running
total, so merging a malformed row with a 100.00 row stores the string
`"NaN"` instead of 100.00. -/
theorem malformed_amount_counterexample :
    totalAt (aggregate [exRowMal, exRowHundred]) 5 = some (some .malformedStr) ∧
    some (some AmountStr.malformedStr) ≠ some (some (AmountStr.numStr 100)) := by
  constructor
  · decide
  · decide

/-- C5 (amended): the aggregation is a total function that raises no error;
a null / missing / empty amount contributes exactly zero to the running
total; but a malformed (non-numeric) amount string parses to `NaN`, which
propagates through the merge and turns the stored total into the string
`"NaN"` rather than being coerced to zero. -/
theorem aggregate_error_handling_spec (e t : TableRow) :
    (∀ a : ℚ, e.total_amount = some (.numStr a) → t.total_amount = none →
      (mergeRow e t).total_amount = some (.numStr (round2 a))) ∧
    (∀ b : ℚ, e.total_amount = none → t.total_amount = some (.numStr b) →
      (mergeRow e t).total_amount = some (.numStr (round2 b))) ∧
    (e.total_amount = some .malformedStr ∨ t.total_amount = some .malformedStr →
      (mergeRow e t).total_amount = some .malformedStr) := by
  refine ⟨?_, ?_, ?_⟩
  · intro a ha ht
    simp [mergeRow, ha, ht, parseAmount, JsNum.add, toFixed2]
  · intro b he hb
    simp [mergeRow, he, hb, parseAmount, JsNum.add, toFixed2]
  · rintro (hm | hm)
    · rw [mergeRow]
      simp only [hm, parseAmount]
      cases parseAmount t.total_amount <;> simp [JsNum.add, toFixed2]
    · rw [mergeRow]
      simp only [hm, parseAmount]
      cases parseAmount e.total_amount <;> simp [JsNum.add, toFixed2]

/-- Closed witness for `aggregate_error_handling_spec`: the malformed row
merged with the 100.00 row. -/
theorem aggregate_error_handling_spec_witness :
    (mergeRow exRowMal exRowHundred).total_amount = some .malformedStr :=
  (aggregate_error_handling_spec exRowMal exRowHundred).2.2 (Or.inl rfl)

/-- C6 counterexample: the table aggregation rounds at intermediate steps.
Four rows of 0.004 for one table aggregate to a stored total of 0.01,
while rounding only once at display would give round2(0.016) = 0.02. -/
theorem intermediate_rounding_counterexample :
    totalAt (aggregate [exRowThin, exRowThin, exRowThin, exRowThin]) 7
        = some (some (.numStr (1 / 100))) ∧
    round2 (1 / 250 + 1 / 250 + 1 / 250 + 1 / 250) = 2 / 100 ∧
    (1 : ℚ) / 100 ≠ 2 / 100 := by
  have h1 : round2 ((250 : ℚ)⁻¹ + 250⁻¹) = 100⁻¹ := by
    rw [round2_of_bounds (n := 1) (by norm_num) (by norm_num)]
    norm_num
  have h2 : round2 ((100 : ℚ)⁻¹ + 250⁻¹) = 100⁻¹ := by
    rw [round2_of_bounds (n := 1) (by norm_num) (by norm_num)]
    norm_num
  refine ⟨?_, ?_, by norm_num⟩
  · simp [totalAt, aggregate, aggregateRow, mapGet, mapSet, mergeRow, parseAmount,
      JsNum.add, toFixed2, exRowThin]
    rw [h1, h2, h2]
  · rw [round2_of_bounds (n := 2) (by norm_num) (by norm_num)]
    norm_num

/-- C6 (amended): the cart pipeline is decimal-exact with no intermediate
rounding — the total is exactly the unrounded sum of line totals times 1.05,
so a display-time `toFixed(2)` is the only rounding — but the table-row
aggregation stores its running total rounded to two decimals (`toFixed(2)`)
at every merge step and re-parses the rounded string for the next addition. -/
theorem rounding_at_display_amended :
    (∀ s : OrderState,
      getTotal s = ((s.items.map (fun i => i.price * (i.quantity : ℚ))).sum) * (21 / 20)) ∧
    (∀ (e t : TableRow) (a b : ℚ), e.total_amount = some (.numStr a) →
      t.total_amount = some (.numStr b) →
      (mergeRow e t).total_amount = some (.numStr (round2 (a + b)))) := by
  constructor
  · intro s
    rw [getTotal, getTax, getSubtotal_eq]
    ring
  · intro e t a b ha hb
    simp [mergeRow, ha, hb, parseAmount, JsNum.add, toFixed2]

/-- Closed witness for `rounding_at_display_amended`: one merge of two 0.004
rows stores round2(0.008) = 0.01. -/
theorem rounding_at_display_amended_witness :
    (mergeRow exRowThin exRowThin).total_amount
      = some (.numStr (round2 (1 / 250 + 1 / 250))) :=
  rounding_at_display_amended.2 exRowThin exRowThin (1 / 250) (1 / 250) rfl rfl

lemma charListLt_asymm : ∀ (a b : List Char), charListLt a b = true → charListLt b a = false := by
  intro a
  induction a with
  | nil =>
      intro b h
      cases b with
      | nil => simp [charListLt] at h
      | cons c cs => simp [charListLt]
  | cons x xs ih =>
      intro b h
      cases b with
      | nil => simp [charListLt] at h
      | cons y ys =>
          simp only [charListLt] at h ⊢
          by_cases h1 : x.toNat < y.toNat
          · rw [if_neg (by omega), if_pos h1]
          · rw [if_neg h1] at h
            by_cases h2 : y.toNat < x.toNat
            · rw [if_pos h2] at h
              exact absurd h (by simp)
            · rw [if_neg h2] at h
              rw [if_neg h2, if_neg h1]
              exact ih ys h

lemma stringLe_total (a b : String) : stringLe a b = true ∨ stringLe b a = true := by
  by_cases h : charListLt b.toList a.toList = true
  · right
    simp only [stringLe, charListLt_asymm _ _ h]
    rfl
  · left
    rw [Bool.not_eq_true] at h
    simp only [stringLe, h]
    rfl

lemma chain'_insertLe {α : Type} (le : α → α → Bool)
    (htot : ∀ a b, le a b = true ∨ le b a = true) (x : α) :
    ∀ l, List.Chain' (fun a b => le a b = true) l →
      List.Chain' (fun a b => le a b = true) (insertLe le x l) := by
  intro l
  induction l with
  | nil =>
      intro _
      simp [insertLe]
  | cons y ys ih =>
      intro h
      obtain ⟨hhead, htail⟩ := List.chain'_cons'.mp h
      rw [insertLe]
      by_cases hyx : le y x = true
      · rw [if_pos hyx]
        refine List.chain'_cons'.mpr ⟨?_, ih htail⟩
        intro z hz
        cases ys with
        | nil =>
            simp [insertLe] at hz
            subst hz
            exact hyx
        | cons w ws =>
            rw [insertLe] at hz
            by_cases hwx : le w x = true
            · rw [if_pos hwx] at hz
              simp at hz
              subst hz
              exact hhead w (by simp)
            · rw [if_neg hwx] at hz
              simp at hz
              subst hz
              exact hyx
      · rw [if_neg hyx]
        refine List.chain'_cons'.mpr ⟨?_, h⟩
        intro z hz
        simp at hz
        subst hz
        rcases htot x y with h1 | h1
        · exact h1
        · exact absurd h1 hyx

lemma chain'_sortLe {α : Type} (le : α → α → Bool)
    (htot : ∀ a b, le a b = true ∨ le b a = true) :
    ∀ l, List.Chain' (fun a b => le a b = true) (sortLe le l) := by
  intro l
  induction l with
  | nil => simp [sortLe]
  | cons x xs ih => exact chain'_insertLe le htot x _ ih

/-- Aggregated table in block A with display number "1". -/
def gRow1 : TableRow :=
  { table_id := 31, table_number := "1", table_block := "A", seating_capacity := 2,
    status := .empty, current_order_id := none, order_number := none, total_amount := none }

/-- Aggregated table in block A with display number "2". -/
def gRow2 : TableRow :=
  { table_id := 32, table_number := "2", table_block := "A", seating_capacity := 2,
    status := .empty, current_order_id := none, order_number := none, total_amount := none }

/-- Aggregated table in block A with display number "10". -/
def gRow10 : TableRow :=
  { table_id := 33, table_number := "10", table_block := "A", seating_capacity := 2,
    status := .empty, current_order_id := none, order_number := none, total_amount := none }

/-- C3 counterexample: the per-block sort is `localeCompare` without a
`numeric` option, which on digit strings is plain lexicographic order:
display numbers "2", "10", "1" come out as ["1", "10", "2"], not as the
claimed numeric-aware ["1", "2", "10"]. -/
theorem groupByBlock_lexical_counterexample :
    (groupByBlock [gRow2, gRow10, gRow1]).map
        (fun p => (p.1, p.2.map (fun t => t.table_number)))
      = [("A", ["1", "10", "2"])] ∧
    (["1", "10", "2"] : List String) ≠ ["1", "2", "10"] := by
  constructor
  · decide
  · decide

/-- C3 (amended): within every block, `groupByBlock` orders the tables by
display number by plain string comparison (each adjacent pair satisfies
`stringLe`, the lexicographic order of `localeCompare` with no numeric
option); on the digit strings "2", "10", "1" this yields ["1", "10", "2"]. -/
theorem groupByBlock_sort_spec :
    (∀ (l : List TableRow) (b : String) (bl : List TableRow),
      (b, bl) ∈ groupByBlock l →
      List.Chain' (fun x y => stringLe x.table_number y.table_number = true) bl) ∧
    (groupByBlock [gRow2, gRow10, gRow1]).map
        (fun p => (p.1, p.2.map (fun t => t.table_number)))
      = [("A", ["1", "10", "2"])] := by
  constructor
  · intro l b bl hmem
    rw [groupByBlock] at hmem
    obtain ⟨bk, _, heq⟩ := List.mem_map.mp hmem
    have hbl : bl = sortTablesByNumber
        ((((groupedTables l).find? (fun p => decide (p.1 = bk))).map (fun p => p.2)).getD []) := by
      have := congrArg Prod.snd heq
      simpa using this.symm
    rw [hbl, sortTablesByNumber]
    exact chain'_sortLe _ (fun (x y : TableRow) => stringLe_total x.table_number y.table_number) _
  · decide

/-- Closed witness for `groupByBlock_sort_spec`: the sorted block-A list of
the concrete grid is a `stringLe` chain. -/
theorem groupByBlock_sort_spec_witness :
    List.Chain' (fun x y => stringLe x.table_number y.table_number = true)
      [gRow1, gRow10, gRow2] :=
  groupByBlock_sort_spec.1 [gRow2, gRow10, gRow1] "A" [gRow1, gRow10, gRow2] (by decide)

lemma mapGet_aggregateRow_ne (m : List (ℤ × TableRow)) (t : TableRow) {id : ℤ}
    (h : id ≠ t.table_id) : mapGet (aggregateRow m t) id = mapGet m id := by
  rw [aggregateRow]
  cases mapGet m t.table_id with
  | some e => exact mapGet_mapSet_ne m _ h
  | none => exact mapGet_mapSet_ne m _ h

lemma foldl_aggregateRow_some (rows : List TableRow) (m0 : List (ℤ × TableRow)) (id : ℤ)
    (e : TableRow) (h : mapGet m0 id = some e) :
    mapGet (rows.foldl aggregateRow m0) id
      = some ((rows.filter (fun r => decide (r.table_id = id))).foldl mergeRow e) := by
  induction rows generalizing m0 e with
  | nil => simpa using h
  | cons r rs ih =>
      by_cases hr : r.table_id = id
      · have hm : mapGet m0 r.table_id = some e := by rw [hr]; exact h
        have hget : mapGet (aggregateRow m0 r) id = some (mergeRow e r) := by
          rw [aggregateRow, hm, ← hr]
          exact mapGet_mapSet_self m0 r.table_id (mergeRow e r)
        have hfil : (r :: rs).filter (fun x => decide (x.table_id = id))
            = r :: rs.filter (fun x => decide (x.table_id = id)) := by
          simp [List.filter, hr]
        rw [List.foldl_cons, hfil, List.foldl_cons]
        exact ih (aggregateRow m0 r) (mergeRow e r) hget
      · have hget : mapGet (aggregateRow m0 r) id = some e := by
          rw [mapGet_aggregateRow_ne m0 r (fun hh => hr hh.symm)]
          exact h
        have hfil : (r :: rs).filter (fun x => decide (x.table_id = id))
            = rs.filter (fun x => decide (x.table_id = id)) := by
          simp [List.filter, hr]
        rw [List.foldl_cons, hfil]
        exact ih (aggregateRow m0 r) e hget

lemma foldl_aggregateRow_none (rows : List TableRow) (m0 : List (ℤ × TableRow)) (id : ℤ)
    (h : mapGet m0 id = none) :
    mapGet (rows.foldl aggregateRow m0) id
      = match rows.filter (fun r => decide (r.table_id = id)) with
        | [] => none
        | t :: rest => some (rest.foldl mergeRow t) := by
  induction rows generalizing m0 with
  | nil => simpa using h
  | cons r rs ih =>
      by_cases hr : r.table_id = id
      · have hm : mapGet m0 r.table_id = none := by rw [hr]; exact h
        have hget : mapGet (aggregateRow m0 r) id = some r := by
          rw [aggregateRow, hm, ← hr]
          exact mapGet_mapSet_self m0 r.table_id r
        have hfil : (r :: rs).filter (fun x => decide (x.table_id = id))
            = r :: rs.filter (fun x => decide (x.table_id = id)) := by
          simp [List.filter, hr]
        rw [List.foldl_cons, hfil]
        exact foldl_aggregateRow_some rs (aggregateRow m0 r) id r hget
      · have hget : mapGet (aggregateRow m0 r) id = none := by
          rw [mapGet_aggregateRow_ne m0 r (fun hh => hr hh.symm)]
          exact h
        have hfil : (r :: rs).filter (fun x => decide (x.table_id = id))
            = rs.filter (fun x => decide (x.table_id = id)) := by
          simp [List.filter, hr]
        rw [List.foldl_cons, hfil]
        exact ih (aggregateRow m0 r) hget

lemma foldl_mergeRow_fields (l : List TableRow) (e : TableRow) :
    (l.foldl mergeRow e).table_number = e.table_number ∧
    (l.foldl mergeRow e).table_block = e.table_block ∧
    (l.foldl mergeRow e).seating_capacity = e.seating_capacity := by
  induction l generalizing e with
  | nil => exact ⟨rfl, rfl, rfl⟩
  | cons t ts ih =>
      rw [List.foldl_cons]
      exact ⟨(ih (mergeRow e t)).1, (ih (mergeRow e t)).2.1, (ih (mergeRow e t)).2.2⟩

/-- Amounts representable with at most two decimals (or absent): on these,
`toFixed(2)` is the identity, so merging performs exact addition. Malformed
strings are excluded. -/
def amtOk : Option AmountStr → Bool
  | none => true
  | some (.numStr q) => decide ((q * 100).den = 1)
  | some .malformedStr => false

/-- The rational value `parseFloat` contributes for a well-formed amount. -/
def parsedQ : Option AmountStr → ℚ
  | some (.numStr q) => q
  | _ => 0

lemma round2_twoDec {q : ℚ} (h : (q * 100).den = 1) : round2 q = q := by
  have hq : (((q * 100).num : ℤ) : ℚ) = q * 100 := (Rat.den_eq_one_iff (q * 100)).mp h
  have h1 : (((q * 100).num : ℤ) : ℚ) ≤ q * 100 + 1 / 2 := by rw [hq]; linarith
  have h2 : q * 100 + 1 / 2 < ((q * 100).num : ℤ) + 1 := by rw [hq]; linarith
  rw [round2_of_bounds h1 h2, hq]
  ring

lemma twoDec_add {a b : ℚ} (ha : (a * 100).den = 1) (hb : (b * 100).den = 1) :
    ((a + b) * 100).den = 1 := by
  have h1 : (((a * 100).num : ℤ) : ℚ) = a * 100 := (Rat.den_eq_one_iff (a * 100)).mp ha
  have h2 : (((b * 100).num : ℤ) : ℚ) = b * 100 := (Rat.den_eq_one_iff (b * 100)).mp hb
  have h3 : (a + b) * 100 = (((a * 100).num + (b * 100).num : ℤ) : ℚ) := by
    push_cast
    rw [h1, h2]
    ring
  rw [h3, Rat.den_intCast]

lemma amtOk_den {a : Option AmountStr} (h : amtOk a = true) : ((parsedQ a) * 100).den = 1 := by
  cases a with
  | none =>
      show ((0 : ℚ) * 100).den = 1
      norm_num
  | some v =>
      cases v with
      | numStr q =>
          have := of_decide_eq_true h
          exact this
      | malformedStr => simp [amtOk] at h

lemma parseAmount_ok {a : Option AmountStr} (h : amtOk a = true) :
    parseAmount a = .val (parsedQ a) := by
  cases a with
  | none => rfl
  | some v =>
      cases v with
      | numStr q => rfl
      | malformedStr => simp [amtOk] at h

lemma mergeRow_total_ok {e t : TableRow} (he : amtOk e.total_amount = true)
    (ht : amtOk t.total_amount = true) :
    (mergeRow e t).total_amount
      = some (.numStr (parsedQ e.total_amount + parsedQ t.total_amount)) := by
  rw [mergeRow]
  simp only [parseAmount_ok he, parseAmount_ok ht, JsNum.add, toFixed2]
  rw [round2_twoDec (twoDec_add (amtOk_den he) (amtOk_den ht))]

lemma amtOk_merge {e t : TableRow} (he : amtOk e.total_amount = true)
    (ht : amtOk t.total_amount = true) : amtOk (mergeRow e t).total_amount = true := by
  rw [mergeRow_total_ok he ht]
  exact decide_eq_true (twoDec_add (amtOk_den he) (amtOk_den ht))

lemma foldl_mergeRow_total (l : List TableRow) : ∀ (e : TableRow),
    amtOk e.total_amount = true → (∀ t ∈ l, amtOk t.total_amount = true) → l ≠ [] →
    (l.foldl mergeRow e).total_amount
      = some (.numStr (parsedQ e.total_amount
          + (l.map (fun t => parsedQ t.total_amount)).sum)) := by
  induction l with
  | nil =>
      intro e _ _ hl
      exact absurd rfl hl
  | cons t ts ih =>
      intro e he hall _
      have ht : amtOk t.total_amount = true := hall t (List.mem_cons_self t ts)
      have hts : ∀ u ∈ ts, amtOk u.total_amount = true :=
        fun u hu => hall u (List.mem_cons_of_mem t hu)
      have hmt := mergeRow_total_ok he ht
      rw [List.foldl_cons]
      cases hemp : ts with
      | nil =>
          simp only [List.foldl_nil, List.map_cons, List.map_nil, List.sum_cons, List.sum_nil]
          rw [hmt, add_zero]
      | cons u us =>
          rw [← hemp]
          have hne : ts ≠ [] := by rw [hemp]; exact List.cons_ne_nil u us
          rw [ih (mergeRow e t) (amtOk_merge he ht) hts hne]
          simp only [hmt, parsedQ, List.map_cons, List.sum_cons]
          rw [add_assoc]

/-- Proof-side characterization of the aggregated total stored for a table:
absent id gives nothing, a single row keeps its raw amount field, two or more
rows give the numeric string of the exact sum (valid on two-decimal inputs). -/
def totalSpec : List TableRow → Option (Option AmountStr)
  | [] => none
  | [t] => some t.total_amount
  | t :: rest =>
      some (some (.numStr (parsedQ t.total_amount
        + (rest.map (fun r => parsedQ r.total_amount)).sum)))

lemma totalAt_eq_totalSpec (rows : List TableRow) (id : ℤ)
    (hall : ∀ t ∈ rows, amtOk t.total_amount = true) :
    totalAt (aggregate rows) id
      = totalSpec (rows.filter (fun r => decide (r.table_id = id))) := by
  have h := foldl_aggregateRow_none rows [] id rfl
  rw [totalAt, aggregate]
  cases hfl : rows.filter (fun r => decide (r.table_id = id)) with
  | nil =>
      rw [hfl] at h
      simp only at h
      rw [h]
      rfl
  | cons t rest =>
      rw [hfl] at h
      simp only at h
      rw [h]
      have htmem : t ∈ rows := (List.mem_filter.mp (hfl ▸ List.mem_cons_self t rest)).1
      cases hrest : rest with
      | nil =>
          simp [totalSpec]
      | cons u us =>
          have hrmem : ∀ r ∈ (u :: us : List TableRow), amtOk r.total_amount = true := by
            intro r hr
            have : r ∈ rows := by
              have hmem2 : r ∈ t :: u :: us := List.mem_cons_of_mem t hr
              rw [← hrest] at hmem2
              rw [← hfl] at hmem2
              exact (List.mem_filter.mp hmem2).1
            exact hall r this
          have htot := foldl_mergeRow_total (u :: us) t (hall t htmem) hrmem
            (List.cons_ne_nil u us)
          rw [show Option.map (fun r => r.total_amount)
                (some (List.foldl mergeRow t (u :: us)))
              = some ((List.foldl mergeRow t (u :: us)).total_amount) from rfl, htot]
          rfl

lemma totalSpec_perm {l l2 : List TableRow} (h : l.Perm l2) : totalSpec l = totalSpec l2 := by
  cases l with
  | nil =>
      rw [h.symm.eq_nil]
  | cons t ts =>
      cases ts with
      | nil =>
          rw [List.perm_singleton.mp h.symm]
      | cons u us =>
          have hlen := h.length_eq
          cases l2 with
          | nil => simp at hlen
          | cons v vs =>
              cases vs with
              | nil => simp at hlen
              | cons w ws =>
                  have hsum := (h.map (fun r => parsedQ r.total_amount)).sum_eq
                  simp only [List.map_cons, List.sum_cons] at hsum
                  simp only [totalSpec, List.map_cons, List.sum_cons]
                  rw [hsum]

/-- Row with amount 0.004 for table 3. -/
def exRowThinB : TableRow :=
  { table_id := 3, table_number := "3", table_block := "B", seating_capacity := 2,
    status := .running, current_order_id := some 4, order_number := some "ORD-4",
    total_amount := some (.numStr (1 / 250)) }

/-- Row with amount 0.01 for table 3. -/
def exRowCent : TableRow :=
  { table_id := 3, table_number := "3", table_block := "B", seating_capacity := 2,
    status := .running, current_order_id := some 4, order_number := some "ORD-4",
    total_amount := some (.numStr (1 / 100)) }

/-- C9 counterexample: the aggregated total for a table id is not invariant
under permutation of the input rows. With amounts 0.004, 0.004, 0.01 for one
table, the input order [0.004, 0.004, 0.01] stores 0.02 while the permuted
order [0.004, 0.01, 0.004] stores 0.01, because the per-merge `toFixed(2)`
rounding depends on the order of the additions. -/
theorem aggregate_order_dependence_counterexample :
    List.Perm [exRowThinB, exRowThinB, exRowCent] [exRowThinB, exRowCent, exRowThinB] ∧
    totalAt (aggregate [exRowThinB, exRowThinB, exRowCent]) 3
      = some (some (.numStr (2 / 100))) ∧
    totalAt (aggregate [exRowThinB, exRowCent, exRowThinB]) 3
      = some (some (.numStr (1 / 100))) ∧
    ((2 : ℚ) / 100) ≠ 1 / 100 := by
  have h1 : round2 ((250 : ℚ)⁻¹ + 250⁻¹) = 100⁻¹ := by
    rw [round2_of_bounds (n := 1) (by norm_num) (by norm_num)]
    norm_num
  have h2 : round2 ((100 : ℚ)⁻¹ + 100⁻¹) = 2 / 100 := by
    rw [round2_of_bounds (n := 2) (by norm_num) (by norm_num)]
    norm_num
  have h3 : round2 ((250 : ℚ)⁻¹ + 100⁻¹) = 100⁻¹ := by
    rw [round2_of_bounds (n := 1) (by norm_num) (by norm_num)]
    norm_num
  have h4 : round2 ((100 : ℚ)⁻¹ + 250⁻¹) = 100⁻¹ := by
    rw [round2_of_bounds (n := 1) (by norm_num) (by norm_num)]
    norm_num
  refine ⟨List.Perm.cons exRowThinB (List.Perm.swap exRowCent exRowThinB []), ?_, ?_, by norm_num⟩
  · simp [totalAt, aggregate, aggregateRow, mapGet, mapSet, mergeRow, parseAmount,
      JsNum.add, toFixed2, exRowThinB, exRowCent]
    rw [h1, h2]
  · simp [totalAt, aggregate, aggregateRow, mapGet, mapSet, mergeRow, parseAmount,
      JsNum.add, toFixed2, exRowThinB, exRowCent]
    rw [h3, h4]

/-- C9 (amended): when every row amount is absent or a value with at most two
decimals (so the per-merge `toFixed(2)` is exact), the aggregated total for
every table id is invariant under any permutation of the input rows; and
independent of that hypothesis, the non-amount fields display number, block
and seating capacity of each aggregate are those of the first row encountered
for that identifier in input order. -/
theorem aggregate_perm_total_spec (rows rows2 : List TableRow) (id : ℤ)
    (hperm : rows.Perm rows2)
    (hall : ∀ t ∈ rows, amtOk t.total_amount = true) :
    (totalAt (aggregate rows) id = totalAt (aggregate rows2) id) ∧
    (∀ (t : TableRow) (rest : List TableRow),
      rows.filter (fun r => decide (r.table_id = id)) = t :: rest →
      ∃ e, mapGet (aggregate rows) id = some e ∧
        e.table_number = t.table_number ∧ e.table_block = t.table_block ∧
        e.seating_capacity = t.seating_capacity) := by
  constructor
  · have hall2 : ∀ t ∈ rows2, amtOk t.total_amount = true :=
      fun t ht => hall t (hperm.mem_iff.mpr ht)
    rw [totalAt_eq_totalSpec rows id hall, totalAt_eq_totalSpec rows2 id hall2]
    exact totalSpec_perm (hperm.filter (fun r => decide (r.table_id = id)))
  · intro t rest hfl
    have h := foldl_aggregateRow_none rows [] id rfl
    rw [hfl] at h
    simp only at h
    refine ⟨rest.foldl mergeRow t, ?_, (foldl_mergeRow_fields rest t).1,
      (foldl_mergeRow_fields rest t).2.1, (foldl_mergeRow_fields rest t).2.2⟩
    rw [aggregate]
    exact h

/-- Closed witness for `aggregate_perm_total_spec`: two rows for table 3 with
absent amounts, in both orders. -/
theorem aggregate_perm_total_spec_witness :
    totalAt (aggregate [gRow1, gRow2]) 31 = totalAt (aggregate [gRow2, gRow1]) 31 :=
  (aggregate_perm_total_spec [gRow1, gRow2] [gRow2, gRow1] 31
    (List.Perm.swap gRow2 gRow1 []) (by decide)).1

/-- Outcome of an awaited backend call: resolved with a value, or rejected
(the `catch` branch runs). -/
inductive ApiResult (α : Type)
  | ok (value : α)
  | err

/-- The only field of the order-creation response the KOT handler reads. -/
structure OrderResponse where
  order_number : String

/-- `handleGenerateKOT` of the order-taking page, with the awaited
`ordersApi.createOrder` outcome passed as a parameter: an empty cart aborts
early; on success the cart is cleared (after printing the KOT); on failure
the `catch` branch only raises a toast and the cart is left untouched. -/
def handleGenerateKOT (s : OrderState) (result : ApiResult OrderResponse) : OrderState :=
  if s.items.isEmpty then s
  else
    match result with
    | .ok _ => clearCart s
    | .err => s

/-- The table-listing slice of `useTableStore` read and written by the
dashboard `fetchTables`. -/
structure TablesState where
  tables : List TableRow
  isLoading : Bool
deriving DecidableEq

/-- `setTables` of the table store. -/
def setTables (data : List TableRow) (_ : TablesState) : TablesState :=
  { tables := data, isLoading := false }

/-- `setLoading` of the table store. -/
def setLoading (b : Bool) (s : TablesState) : TablesState := { s with isLoading := b }

/-- `fetchTables` of the captain dashboard, with the awaited
`tablesApi.getAllTables` outcome passed as a parameter: loading is toggled on,
the listing is stored only on success, and the `finally` branch toggles
loading off; the `catch` branch only raises a toast. -/
def fetchTables (s : TablesState) (result : ApiResult (List TableRow)) : TablesState :=
  let s1 := setLoading true s
  match result with
  | .ok data => setLoading false (setTables data s1)
  | .err => setLoading false s1

/-- C10: a failed backend call causes no partial state mutation: after a
failed KOT submission the cart state (its lines and table id) is exactly as
before, and after a failed table-listing fetch the stored listing retains its
last-known-good value. -/
theorem failed_call_preserves_state (s : OrderState) (ts : TablesState) :
    handleGenerateKOT s .err = s ∧
    (handleGenerateKOT s .err).items = s.items ∧
    (fetchTables ts .err).tables = ts.tables := by
  have h : handleGenerateKOT s .err = s := by
    rw [handleGenerateKOT]
    split <;> rfl
  exact ⟨h, by rw [h], rfl⟩

end NaiBahu
